import Mathlib

/-!
# noa::pms::pumas::PhysicsModel — ownership of the native physics handle

Shallow embedding of `src/noa/pms/pumas.hh`.

* A `pumas_physics *` is a natural number, `nullptr` being `0`.
* The native engine (`pumas_physics_create`, `pumas_physics_load`,
  `pumas_physics_dump`, `pumas_physics_destroy`), `fopen` and the file
  system live outside the header; they are the fields of `Env`, about
  which nothing is assumed.
* Every call that leaves the header (engine calls, `fopen`, `fclose`,
  writes to `std::cerr`) is recorded, in program order, as an `Event`.
* Member functions that touch only `*this` are functions on the value of
  the object.  Move-assignment receives a reference that may alias
  `*this`, so it is a function on a memory of objects.
-/

namespace noa.pms.pumas

/-! ## Data model -/

/-- A file-system path (`utils::Path`). -/
abbrev Path := String

/-- Value of a `pumas_physics *`. -/
abbrev Handle := Nat

/-- The null pointer. -/
def nullptr : Handle := 0

/-- A non-null `FILE *` returned by `fopen`. -/
abbrev FILE := Nat

/-- Address of a `PhysicsModel` object. -/
abbrev Addr := Nat

/-- Result type of the private helpers and of `save_binary` (`utils::Status`). -/
abbrev Status := Bool

/-- Modelled from the spec: the enumeration `pumas_particle` of the engine's
header, which is not part of the sources at hand; the header uses its two
members `PUMAS_PARTICLE_MUON` and `PUMAS_PARTICLE_TAU`, which the spec
describes as distinct particle-kind tags. -/
inductive pumas_particle where
  | PUMAS_PARTICLE_MUON
  | PUMAS_PARTICLE_TAU
deriving DecidableEq, Repr

/-- Modelled from the spec: the engine's status code `enum pumas_return`,
declared outside the sources at hand, as a number. -/
abbrev pumas_return := Nat

/-- Modelled from the spec: the one status code that means success; the
header compares engine results against it. -/
def PUMAS_RETURN_SUCCESS : pumas_return := 0

/-- Calls that leave the header, with the arguments they receive. -/
inductive Event where
  | fopen (path : Path) (mode : String)
  | fclose (stream : FILE)
  | pumas_physics_create (physics : Handle) (particle : pumas_particle) (mdf dedx : Path)
  | pumas_physics_load (physics : Handle) (stream : FILE)
  | pumas_physics_dump (physics : Handle) (stream : FILE)
  | pumas_physics_destroy (physics : Handle)
  | cerr (text : String) (path : Path)
deriving DecidableEq, Repr

/-- The world outside the header: the file system, the C library and the
native engine.

* `path_exists path`: whether the path exists in the file system.
* `fopen path mode`: `none` is a null `FILE *`.
* `pumas_physics_create p particle mdf dedx`: `p` is the value of
  `*physics` on entry; the result is the status and the value of
  `*physics` on exit.  `pumas_physics_load` likewise.
* `pumas_physics_dump`: the status the engine reports.
* `pumas_physics_destroy p`: the value the engine leaves in `*physics`. -/
structure Env where
  path_exists : Path → Bool
  fopen : Path → String → Option FILE
  pumas_physics_create : Handle → pumas_particle → Path → Path → pumas_return × Handle
  pumas_physics_load : Handle → FILE → pumas_return × Handle
  pumas_physics_dump : Handle → FILE → pumas_return
  pumas_physics_destroy : Handle → Handle

/-- Data members of `PhysicsModel<ParticleModel>`, with their default
member initialisers. -/
structure PhysicsModel where
  particle : pumas_particle := pumas_particle.PUMAS_PARTICLE_MUON
  physics : Handle := nullptr
deriving DecidableEq, Repr

/-- The template argument of `PhysicsModel`: one of the two derived classes. -/
inductive ParticleModel where
  | MuonModel
  | TauModel
deriving DecidableEq, Repr

namespace PhysicsModel

/-- `explicit PhysicsModel(pumas_particle particle_) : particle{particle_} {}` -/
def ctor (particle_ : pumas_particle) : PhysicsModel :=
  { particle := particle_, physics := nullptr }

end PhysicsModel

namespace ParticleModel

/-- The particle each derived class hands to the base constructor. -/
def tag : ParticleModel → pumas_particle
  | MuonModel => pumas_particle.PUMAS_PARTICLE_MUON
  | TauModel => pumas_particle.PUMAS_PARTICLE_TAU

/-- `ParticleModel{}`: the private default constructors
`MuonModel() : PhysicsModel<MuonModel>{PUMAS_PARTICLE_MUON} {}` and
`TauModel() : PhysicsModel<TauModel>{PUMAS_PARTICLE_TAU} {}`. -/
def construct : ParticleModel → PhysicsModel
  | MuonModel => PhysicsModel.ctor pumas_particle.PUMAS_PARTICLE_MUON
  | TauModel => PhysicsModel.ctor pumas_particle.PUMAS_PARTICLE_TAU

end ParticleModel

/-! ## Member functions -/

/-- Modelled from the spec: `utils::check_path_exists`, declared in
`noa/utils/common.hh`, which is not among the sources at hand.  The spec
describes it as a local check of whether the path exists, made before any
native call and producing no output: the answer is the file system's, and
no call is recorded. -/
def utils.check_path_exists (env : Env) (path : Path) : Bool × List Event :=
  (env.path_exists path, [])

namespace PhysicsModel

/-- `create_physics`: status, the object afterwards, the calls made. -/
def create_physics (env : Env) (this : PhysicsModel) (mdf_path dedx_path : Path) :
    Status × PhysicsModel × List Event :=
  let c1 := utils.check_path_exists env mdf_path
  if c1.1 then
    let c2 := utils.check_path_exists env dedx_path
    if c2.1 then
      let r := env.pumas_physics_create this.physics this.particle mdf_path dedx_path
      let status := r.1
      (decide (status = PUMAS_RETURN_SUCCESS),
        { this with physics := r.2 },
        c1.2 ++ c2.2 ++
          [Event.pumas_physics_create this.physics this.particle mdf_path dedx_path])
    else
      (false, this, c1.2 ++ c2.2)
  else
    (false, this, c1.2)

/-- `load_physics`: status, the object afterwards, the calls made. -/
def load_physics (env : Env) (this : PhysicsModel) (binary_path : Path) :
    Status × PhysicsModel × List Event :=
  let c := utils.check_path_exists env binary_path
  if c.1 then
    match env.fopen binary_path "rb" with
    | some handle =>
      let r := env.pumas_physics_load this.physics handle
      let status := r.1
      (decide (status = PUMAS_RETURN_SUCCESS),
        { this with physics := r.2 },
        c.2 ++
          [Event.fopen binary_path "rb",
           Event.pumas_physics_load this.physics handle,
           Event.fclose handle])
    | none =>
      (false, this,
        c.2 ++ [Event.fopen binary_path "rb", Event.cerr "Failed to open " binary_path])
  else
    (false, this, c.2)

/-- Move constructor `PhysicsModel(PhysicsModel &&other)`: the object
constructed, `other` afterwards, the calls made. -/
def move_construct (other : PhysicsModel) : PhysicsModel × PhysicsModel × List Event :=
  let this : PhysicsModel := { particle := other.particle, physics := other.physics }
  let other1 : PhysicsModel := { other with physics := nullptr }
  (this, other1, [])

/-- Move assignment `operator=(PhysicsModel &&other)` on a memory of
objects, statement by statement; `this` and `other` may be the same
address. -/
def move_assign (mem : Addr → PhysicsModel) (this other : Addr) :
    (Addr → PhysicsModel) × List Event :=
  let m1 := Function.update mem this { mem this with particle := (mem other).particle }
  let m2 := Function.update m1 this { m1 this with physics := (m1 other).physics }
  let m3 := Function.update m2 other { m2 other with physics := nullptr }
  (m3, [])

/-- Destructor `~PhysicsModel()`: the object afterwards and the calls made. -/
def destructor (env : Env) (this : PhysicsModel) : PhysicsModel × List Event :=
  let this1 : PhysicsModel := { this with physics := env.pumas_physics_destroy this.physics }
  ({ this1 with physics := nullptr }, [Event.pumas_physics_destroy this.physics])

/-- `save_binary`: status, the object afterwards (the function is `const`),
the calls made.  The status returned by `pumas_physics_dump` is not used. -/
def save_binary (env : Env) (this : PhysicsModel) (binary_path : Path) :
    Status × PhysicsModel × List Event :=
  match env.fopen binary_path "wb" with
  | some handle =>
    let _unused := env.pumas_physics_dump this.physics handle
    (true, this,
      [Event.fopen binary_path "wb",
       Event.pumas_physics_dump this.physics handle,
       Event.fclose handle])
  | none =>
    (false, this,
      [Event.fopen binary_path "wb", Event.cerr "Failed to open " binary_path])

/-- `load_from_mdf`: the optional returned and the calls made, the
destruction of the local `model` at scope exit included. -/
def load_from_mdf (env : Env) (V : ParticleModel) (mdf_path dedx_path : Path) :
    Option PhysicsModel × List Event :=
  let model := V.construct
  let c := create_physics env model mdf_path dedx_path
  let status := c.1
  let model1 := c.2.1
  if status then
    let mv := move_construct model1
    let d := destructor env mv.2.1
    (some mv.1, c.2.2 ++ mv.2.2 ++ d.2)
  else
    let d := destructor env model1
    (none, c.2.2 ++ d.2)

/-- `load_from_binary`: the optional returned and the calls made, the
destruction of the local `model` at scope exit included. -/
def load_from_binary (env : Env) (V : ParticleModel) (binary_path : Path) :
    Option PhysicsModel × List Event :=
  let model := V.construct
  let c := load_physics env model binary_path
  let status := c.1
  let model1 := c.2.1
  if status then
    let mv := move_construct model1
    let d := destructor env mv.2.1
    (some mv.1, c.2.2 ++ mv.2.2 ++ d.2)
  else
    let d := destructor env model1
    (none, c.2.2 ++ d.2)

end PhysicsModel

/-! ## Reading a sequence of calls -/

/-- Handles passed to `pumas_physics_destroy`, in call order. -/
def destroyCalls : List Event → List Handle
  | [] => []
  | Event.pumas_physics_destroy p :: es => p :: destroyCalls es
  | _ :: es => destroyCalls es

/-- Arguments of the calls to `pumas_physics_create`, in call order. -/
def createCalls : List Event → List (Handle × pumas_particle × Path × Path)
  | [] => []
  | Event.pumas_physics_create p k mdf dedx :: es => (p, k, mdf, dedx) :: createCalls es
  | _ :: es => createCalls es

/-- Arguments of the calls to `pumas_physics_dump`, in call order. -/
def dumpCalls : List Event → List (Handle × FILE)
  | [] => []
  | Event.pumas_physics_dump p f :: es => (p, f) :: dumpCalls es
  | _ :: es => dumpCalls es

/-- Diagnostics written to `std::cerr`, in order. -/
def diagnostics : List Event → List (String × Path)
  | [] => []
  | Event.cerr t p :: es => (t, p) :: diagnostics es
  | _ :: es => diagnostics es

namespace Event

/-- The event is a call of one of the four engine entry points. -/
def isEngineCall : Event → Bool
  | pumas_physics_create _ _ _ _ => true
  | pumas_physics_load _ _ => true
  | pumas_physics_dump _ _ => true
  | pumas_physics_destroy _ => true
  | _ => false

/-- The event is a call of `pumas_physics_create`. -/
def isCreate : Event → Bool
  | pumas_physics_create _ _ _ _ => true
  | _ => false

/-- The event is a call of `pumas_physics_load`. -/
def isLoad : Event → Bool
  | pumas_physics_load _ _ => true
  | _ => false

/-- The event is a call of `pumas_physics_dump`. -/
def isDump : Event → Bool
  | pumas_physics_dump _ _ => true
  | _ => false

/-- The event is a call of `fopen`. -/
def isFopen : Event → Bool
  | fopen _ _ => true
  | _ => false

/-- The event is a write to `std::cerr`. -/
def isCerr : Event → Bool
  | cerr _ _ => true
  | _ => false

end Event

/-! ## Programs over many instances -/

/-- The objects of a client program: the value stored at each address, the
class each object was declared with, the addresses of the objects whose
lifetime has begun and not ended, and the calls made so far. -/
structure World where
  mem : Addr → PhysicsModel
  variant : Addr → ParticleModel
  live : List Addr
  trace : List Event

/-- What a client can do with the public interface.  Factory results are
stored at `ret`; `moveConstruct this other` begins the lifetime of `this`;
`destroy` ends the lifetime of `this`. -/
inductive Op where
  | load_from_mdf (env : Env) (V : ParticleModel) (mdf_path dedx_path : Path) (ret : Addr)
  | load_from_binary (env : Env) (V : ParticleModel) (binary_path : Path) (ret : Addr)
  | moveConstruct (this other : Addr)
  | moveAssign (this other : Addr)
  | save_binary (env : Env) (this : Addr) (binary_path : Path)
  | destroy (env : Env) (this : Addr)

namespace World

/-- No object yet. -/
def init : World :=
  { mem := fun _ => {}, variant := fun _ => ParticleModel.MuonModel, live := [], trace := [] }

/-- Some live object holds the handle `h`. -/
def owned (w : World) (h : Handle) : Bool :=
  w.live.any (fun a => decide ((w.mem a).physics = h))

/-- Store a factory result.  A present result begins the lifetime of the
object at `ret`.  The step is refused when the engine hands out a non-null
handle that a live object already holds. -/
def store (w : World) (V : ParticleModel) (ret : Addr)
    (r : Option PhysicsModel × List Event) : Option World :=
  match r.1 with
  | some m =>
    if m.physics ≠ nullptr ∧ w.owned m.physics = true then none
    else some
      { mem := Function.update w.mem ret m,
        variant := Function.update w.variant ret V,
        live := ret :: w.live,
        trace := w.trace ++ r.2 }
  | none => some { w with trace := w.trace ++ r.2 }

/-- One operation of the client.  `none`: the operation is not a valid
C++ program at this point (it names an object that is not live, reuses
the storage of a live object, or assigns across different classes) or the
engine handed out a handle that is still owned. -/
def step (w : World) : Op → Option World
  | Op.load_from_mdf env V mdf_path dedx_path ret =>
    if ret ∈ w.live then none
    else w.store V ret (PhysicsModel.load_from_mdf env V mdf_path dedx_path)
  | Op.load_from_binary env V binary_path ret =>
    if ret ∈ w.live then none
    else w.store V ret (PhysicsModel.load_from_binary env V binary_path)
  | Op.moveConstruct this other =>
    if this ∈ w.live ∨ other ∉ w.live then none
    else
      let r := PhysicsModel.move_construct (w.mem other)
      some
        { mem := Function.update (Function.update w.mem other r.2.1) this r.1,
          variant := Function.update w.variant this (w.variant other),
          live := this :: w.live,
          trace := w.trace ++ r.2.2 }
  | Op.moveAssign this other =>
    if this ∉ w.live ∨ other ∉ w.live ∨ w.variant this ≠ w.variant other then none
    else
      let r := PhysicsModel.move_assign w.mem this other
      some { w with mem := r.1, trace := w.trace ++ r.2 }
  | Op.save_binary env this binary_path =>
    if this ∉ w.live then none
    else
      let r := PhysicsModel.save_binary env (w.mem this) binary_path
      some { w with mem := Function.update w.mem this r.2.1, trace := w.trace ++ r.2.2 }
  | Op.destroy env this =>
    if this ∉ w.live then none
    else
      let r := PhysicsModel.destructor env (w.mem this)
      some
        { w with
          mem := Function.update w.mem this r.1,
          live := w.live.filter (fun a => decide (a ≠ this)),
          trace := w.trace ++ r.2 }

/-- A sequence of operations, from left to right. -/
def run (w : World) : List Op → Option World
  | [] => some w
  | op :: ops =>
    match w.step op with
    | some w1 => w1.run ops
    | none => none

/-- No two distinct live objects hold the same non-null handle. -/
def UniqueOwnership (w : World) : Prop :=
  ∀ a ∈ w.live, ∀ b ∈ w.live, a ≠ b →
    (w.mem a).physics = (w.mem b).physics → (w.mem a).physics = nullptr

/-- Every live object carries the particle of the class it was declared with. -/
def TagFixed (w : World) : Prop :=
  ∀ a ∈ w.live, (w.mem a).particle = (w.variant a).tag

end World

/-! ## Sample environments -/

/-- An environment in which no path exists and nothing opens. -/
def envNoFiles : Env :=
  { path_exists := fun _ => false,
    fopen := fun _ _ => none,
    pumas_physics_create := fun p _ _ _ => (1, p),
    pumas_physics_load := fun p _ => (1, p),
    pumas_physics_dump := fun _ _ => 1,
    pumas_physics_destroy := fun _ => nullptr }

/-- An environment in which every path exists and opens as stream `3`, and
the engine hands out the handle `h` with success on creation and loading;
`pumas_physics_dump` reports success exactly for a non-null handle. -/
def envGives (h : Handle) : Env :=
  { path_exists := fun _ => true,
    fopen := fun _ _ => some 3,
    pumas_physics_create := fun _ _ _ _ => (PUMAS_RETURN_SUCCESS, h),
    pumas_physics_load := fun _ _ => (PUMAS_RETURN_SUCCESS, h),
    pumas_physics_dump := fun p _ => if p = nullptr then 1 else PUMAS_RETURN_SUCCESS,
    pumas_physics_destroy := fun _ => nullptr }

/-! ## Sample memories and programs -/

/-- A memory holding a muon model with handle `p` at address `0`, one with
handle `q` at address `1`, and default-initialised objects elsewhere. -/
def twoModels (p q : Handle) : Addr → PhysicsModel :=
  fun a =>
    if a = 0 then { particle := pumas_particle.PUMAS_PARTICLE_MUON, physics := p }
    else if a = 1 then { particle := pumas_particle.PUMAS_PARTICLE_MUON, physics := q }
    else {}

/-- A client program: two muon models are made by the factories at
addresses `0` and `1`, the first is moved into a new object at `2`, the
second is assigned to itself and then moved into the object at `2`, the
object at `0` is destroyed and its storage reused for a third model, and a
tau model is loaded at address `3`. -/
def sampleProgram : List Op :=
  [Op.load_from_mdf (envGives 1) ParticleModel.MuonModel "m.mdf" "m.dedx" 0,
   Op.load_from_binary (envGives 2) ParticleModel.MuonModel "m.bin" 1,
   Op.moveConstruct 2 0,
   Op.moveAssign 1 1,
   Op.moveAssign 2 1,
   Op.destroy (envGives 0) 0,
   Op.load_from_mdf (envGives 3) ParticleModel.MuonModel "m.mdf" "m.dedx" 0,
   Op.load_from_binary (envGives 4) ParticleModel.TauModel "t.bin" 3]

/-- A client program: two muon models are made at addresses `0` (the engine
hands out handle `1`) and `1` (handle `2`), the second is move-assigned to
the first, and both are destroyed. -/
def leakProgram : List Op :=
  [Op.load_from_mdf (envGives 1) ParticleModel.MuonModel "m.mdf" "m.dedx" 0,
   Op.load_from_mdf (envGives 2) ParticleModel.MuonModel "m.mdf" "m.dedx" 1,
   Op.moveAssign 0 1,
   Op.destroy (envGives 0) 0,
   Op.destroy (envGives 0) 1]

/-! ## Uniqueness of handles -/

/-- The function `phys` gives distinct addresses of `L` distinct handles,
the null handle apart. -/
def UniqueOn (phys : Addr → Handle) (L : List Addr) : Prop :=
  ∀ a ∈ L, ∀ b ∈ L, a ≠ b → phys a = phys b → phys a = nullptr

/-! ## The factories -/

namespace PhysicsModel

theorem construct_physics (V : ParticleModel) : V.construct.physics = nullptr := by
  cases V <;> rfl

theorem construct_particle (V : ParticleModel) : V.construct.particle = V.tag := by
  cases V <;> rfl

/-- What `load_from_mdf` returns and calls, by cases on the environment. -/
theorem load_from_mdf_eq (env : Env) (V : ParticleModel) (mdf dedx : Path) :
    load_from_mdf env V mdf dedx =
      if env.path_exists mdf = true ∧ env.path_exists dedx = true then
        if (env.pumas_physics_create nullptr V.tag mdf dedx).1 = PUMAS_RETURN_SUCCESS then
          (some { particle := V.tag,
                  physics := (env.pumas_physics_create nullptr V.tag mdf dedx).2 },
            [Event.pumas_physics_create nullptr V.tag mdf dedx,
             Event.pumas_physics_destroy nullptr])
        else
          (none,
            [Event.pumas_physics_create nullptr V.tag mdf dedx,
             Event.pumas_physics_destroy (env.pumas_physics_create nullptr V.tag mdf dedx).2])
      else (none, [Event.pumas_physics_destroy nullptr]) := by
  simp only [load_from_mdf, create_physics, utils.check_path_exists, move_construct, destructor,
    construct_physics, construct_particle]
  by_cases h1 : env.path_exists mdf = true <;>
    by_cases h2 : env.path_exists dedx = true <;>
    by_cases h3 : (env.pumas_physics_create nullptr V.tag mdf dedx).1 = PUMAS_RETURN_SUCCESS <;>
    simp [h1, h2, h3, construct_physics, construct_particle]

/-- What `load_from_binary` returns and calls, by cases on the environment. -/
theorem load_from_binary_eq (env : Env) (V : ParticleModel) (bin : Path) :
    load_from_binary env V bin =
      if env.path_exists bin = true then
        match env.fopen bin "rb" with
        | some f =>
          if (env.pumas_physics_load nullptr f).1 = PUMAS_RETURN_SUCCESS then
            (some { particle := V.tag, physics := (env.pumas_physics_load nullptr f).2 },
              [Event.fopen bin "rb", Event.pumas_physics_load nullptr f, Event.fclose f,
               Event.pumas_physics_destroy nullptr])
          else
            (none,
              [Event.fopen bin "rb", Event.pumas_physics_load nullptr f, Event.fclose f,
               Event.pumas_physics_destroy (env.pumas_physics_load nullptr f).2])
        | none =>
          (none,
            [Event.fopen bin "rb", Event.cerr "Failed to open " bin,
             Event.pumas_physics_destroy nullptr])
      else (none, [Event.pumas_physics_destroy nullptr]) := by
  simp only [load_from_binary, load_physics, utils.check_path_exists, move_construct,
    destructor, construct_physics, construct_particle]
  by_cases h1 : env.path_exists bin = true
  · cases hf : env.fopen bin "rb" with
    | none => simp [h1, construct_physics, construct_particle]
    | some f =>
      by_cases h3 : (env.pumas_physics_load nullptr f).1 = PUMAS_RETURN_SUCCESS <;>
        simp [h1, h3, construct_physics, construct_particle]
  · simp [h1, construct_physics, construct_particle]

/-- C1: `load_from_mdf` returns a present result exactly when both paths
exist and `pumas_physics_create` reports `PUMAS_RETURN_SUCCESS`;
`load_from_binary` returns a present result exactly when the path exists,
`fopen` gives a stream and `pumas_physics_load` reports
`PUMAS_RETURN_SUCCESS` on it.  If the engine writes a non-null handle
whenever it reports success, the instance inside a present result holds the
handle the engine wrote, that handle is not null, and the factory itself
passed only a null handle to `pumas_physics_destroy`.  In every other case
the result is absent. -/
theorem factory_present_iff (env : Env) (V : ParticleModel) (mdf dedx bin : Path) :
    ((load_from_mdf env V mdf dedx).1.isSome = true ↔
      (env.path_exists mdf = true ∧ env.path_exists dedx = true ∧
        (env.pumas_physics_create nullptr V.tag mdf dedx).1 = PUMAS_RETURN_SUCCESS)) ∧
    ((load_from_binary env V bin).1.isSome = true ↔
      (env.path_exists bin = true ∧
        ∃ f, env.fopen bin "rb" = some f ∧
          (env.pumas_physics_load nullptr f).1 = PUMAS_RETURN_SUCCESS)) ∧
    ((∀ p k a b, (env.pumas_physics_create p k a b).1 = PUMAS_RETURN_SUCCESS →
        (env.pumas_physics_create p k a b).2 ≠ nullptr) →
      ∀ m, (load_from_mdf env V mdf dedx).1 = some m →
        m.physics = (env.pumas_physics_create nullptr V.tag mdf dedx).2 ∧
        m.physics ≠ nullptr ∧
        destroyCalls (load_from_mdf env V mdf dedx).2 = [nullptr]) ∧
    ((∀ p f, (env.pumas_physics_load p f).1 = PUMAS_RETURN_SUCCESS →
        (env.pumas_physics_load p f).2 ≠ nullptr) →
      ∀ m, (load_from_binary env V bin).1 = some m →
        (∃ f, env.fopen bin "rb" = some f ∧ m.physics = (env.pumas_physics_load nullptr f).2) ∧
        m.physics ≠ nullptr ∧
        destroyCalls (load_from_binary env V bin).2 = [nullptr]) := by
  refine ⟨?_, ?_, ?_, ?_⟩
  · rw [load_from_mdf_eq]
    by_cases h1 : env.path_exists mdf = true ∧ env.path_exists dedx = true
    · by_cases h3 : (env.pumas_physics_create nullptr V.tag mdf dedx).1 = PUMAS_RETURN_SUCCESS
      · simp [h1, h3]
      · simp [h1, h3]
    · rw [if_neg h1]
      constructor
      · intro h; simp at h
      · intro h; exact absurd ⟨h.1, h.2.1⟩ h1
  · rw [load_from_binary_eq]
    by_cases h1 : env.path_exists bin = true
    · cases hf : env.fopen bin "rb" with
      | none => simp [h1]
      | some f =>
        by_cases h3 : (env.pumas_physics_load nullptr f).1 = PUMAS_RETURN_SUCCESS
        · simp [h1, h3]
        · simp [h1, h3]
    · simp [h1]
  · intro hne m hm
    rw [load_from_mdf_eq] at hm ⊢
    by_cases h1 : env.path_exists mdf = true ∧ env.path_exists dedx = true
    · by_cases h3 : (env.pumas_physics_create nullptr V.tag mdf dedx).1 = PUMAS_RETURN_SUCCESS
      · rw [if_pos h1, if_pos h3] at hm ⊢
        simp only [Option.some.injEq] at hm
        subst hm
        exact ⟨rfl, hne _ _ _ _ h3, rfl⟩
      · rw [if_pos h1, if_neg h3] at hm
        simp at hm
    · rw [if_neg h1] at hm
      simp at hm
  · intro hne m hm
    rw [load_from_binary_eq] at hm ⊢
    by_cases h1 : env.path_exists bin = true
    · cases hf : env.fopen bin "rb" with
      | none =>
        rw [if_pos h1, hf] at hm
        simp at hm
      | some f =>
        by_cases h3 : (env.pumas_physics_load nullptr f).1 = PUMAS_RETURN_SUCCESS
        · rw [if_pos h1, hf] at hm
          simp only [if_pos h3, Option.some.injEq] at hm
          subst hm
          refine ⟨⟨f, rfl, rfl⟩, hne _ _ h3, ?_⟩
          simp [h1, h3, destroyCalls]
        · rw [if_pos h1, hf] at hm
          simp [h3] at hm
    · rw [if_neg h1] at hm
      simp at hm

/-- C1 at a sample environment: every path exists and the engine hands out
handle `7`. -/
theorem factory_present_iff_witness :
    (load_from_mdf (envGives 7) ParticleModel.MuonModel "m.mdf" "m.dedx").1 =
        some { particle := pumas_particle.PUMAS_PARTICLE_MUON, physics := 7 } ∧
      ((load_from_mdf (envGives 7) ParticleModel.MuonModel "m.mdf" "m.dedx").1.isSome = true ↔
        ((envGives 7).path_exists "m.mdf" = true ∧
          (envGives 7).path_exists "m.dedx" = true ∧
          ((envGives 7).pumas_physics_create nullptr ParticleModel.MuonModel.tag
            "m.mdf" "m.dedx").1 = PUMAS_RETURN_SUCCESS)) ∧
      (7 : Handle) ≠ nullptr ∧
      destroyCalls (load_from_mdf (envGives 7) ParticleModel.MuonModel "m.mdf" "m.dedx").2 =
        [nullptr] :=
  have h := factory_present_iff (envGives 7) ParticleModel.MuonModel "m.mdf" "m.dedx" "m.bin"
  have h3 := h.2.2.1 (fun _ _ _ _ _ => (by decide : (7 : Handle) ≠ nullptr))
    { particle := pumas_particle.PUMAS_PARTICLE_MUON, physics := 7 } rfl
  ⟨rfl, h.1, h3.2.1, h3.2.2⟩

/-- C2: when the model description path or the energy-loss table path does
not exist, `load_from_mdf` returns an absent result, calls no
`pumas_physics_create` and writes nothing to `std::cerr`: its only call is
the destruction of the local model, which passes a null handle.  When the
binary dump path does not exist, `load_from_binary` returns an absent
result, calls neither `fopen` nor `pumas_physics_load`, and again only
destroys the local model. -/
theorem missing_input_file (env : Env) (V : ParticleModel) :
    (∀ mdf dedx : Path,
      env.path_exists mdf = false ∨ env.path_exists dedx = false →
        (load_from_mdf env V mdf dedx).1 = none ∧
        (∀ e ∈ (load_from_mdf env V mdf dedx).2, e.isCreate = false ∧ e.isCerr = false) ∧
        (load_from_mdf env V mdf dedx).2 = [Event.pumas_physics_destroy nullptr]) ∧
    (∀ bin : Path,
      env.path_exists bin = false →
        (load_from_binary env V bin).1 = none ∧
        (∀ e ∈ (load_from_binary env V bin).2, e.isFopen = false ∧ e.isLoad = false) ∧
        (load_from_binary env V bin).2 = [Event.pumas_physics_destroy nullptr]) := by
  constructor
  · intro mdf dedx h
    have hn : ¬ (env.path_exists mdf = true ∧ env.path_exists dedx = true) := by
      rintro ⟨h1, h2⟩
      rcases h with h | h
      · rw [h1] at h; exact Bool.noConfusion h
      · rw [h2] at h; exact Bool.noConfusion h
    rw [load_from_mdf_eq, if_neg hn]
    refine ⟨rfl, ?_, rfl⟩
    intro e he
    simp only [List.mem_singleton] at he
    subst he
    exact ⟨rfl, rfl⟩
  · intro bin h
    have hn : ¬ (env.path_exists bin = true) := by
      rw [h]; exact Bool.noConfusion
    rw [load_from_binary_eq, if_neg hn]
    refine ⟨rfl, ?_, rfl⟩
    intro e he
    simp only [List.mem_singleton] at he
    subst he
    exact ⟨rfl, rfl⟩

/-- C2 at a sample environment in which no path exists. -/
theorem missing_input_file_witness :
    (load_from_mdf envNoFiles ParticleModel.MuonModel "missing.mdf" "missing.dedx").1 = none ∧
      (load_from_mdf envNoFiles ParticleModel.MuonModel "missing.mdf" "missing.dedx").2 =
        [Event.pumas_physics_destroy nullptr] ∧
      (load_from_binary envNoFiles ParticleModel.TauModel "missing.bin").1 = none ∧
      (load_from_binary envNoFiles ParticleModel.TauModel "missing.bin").2 =
        [Event.pumas_physics_destroy nullptr] :=
  have hm := (missing_input_file envNoFiles ParticleModel.MuonModel).1
    "missing.mdf" "missing.dedx" (Or.inl rfl)
  have hb := (missing_input_file envNoFiles ParticleModel.TauModel).2 "missing.bin" rfl
  ⟨hm.1, hm.2.2, hb.1, hb.2.2⟩

/-! ## Release of the handle -/

/-- C3: after a successful `load_from_mdf` or `load_from_binary` whose
result holds a non-null handle `h`, followed by the destruction of the
returned instance, the calls to `pumas_physics_destroy` are, in order, one
with a null handle (the factory's moved-from local model) and one with `h`:
`h` is received exactly once and every other call receives a null handle.
A second destruction of the returned instance adds one call, with a null
handle. -/
theorem released_exactly_once (env : Env) (V : ParticleModel) (mdf dedx bin : Path) :
    (∀ m, (load_from_mdf env V mdf dedx).1 = some m → m.physics ≠ nullptr →
      destroyCalls ((load_from_mdf env V mdf dedx).2 ++ (destructor env m).2) =
          [nullptr, m.physics] ∧
        (destroyCalls ((load_from_mdf env V mdf dedx).2 ++ (destructor env m).2)).count
          m.physics = 1 ∧
        (∀ h ∈ destroyCalls ((load_from_mdf env V mdf dedx).2 ++ (destructor env m).2),
          h ≠ m.physics → h = nullptr) ∧
        destroyCalls (destructor env (destructor env m).1).2 = [nullptr]) ∧
    (∀ m, (load_from_binary env V bin).1 = some m → m.physics ≠ nullptr →
      destroyCalls ((load_from_binary env V bin).2 ++ (destructor env m).2) =
          [nullptr, m.physics] ∧
        (destroyCalls ((load_from_binary env V bin).2 ++ (destructor env m).2)).count
          m.physics = 1 ∧
        (∀ h ∈ destroyCalls ((load_from_binary env V bin).2 ++ (destructor env m).2),
          h ≠ m.physics → h = nullptr) ∧
        destroyCalls (destructor env (destructor env m).1).2 = [nullptr]) := by
  have key : ∀ (t : List Event) (m : PhysicsModel), m.physics ≠ nullptr →
      destroyCalls (t ++ (destructor env m).2) = [nullptr, m.physics] →
      destroyCalls (t ++ (destructor env m).2) = [nullptr, m.physics] ∧
        (destroyCalls (t ++ (destructor env m).2)).count m.physics = 1 ∧
        (∀ h ∈ destroyCalls (t ++ (destructor env m).2), h ≠ m.physics → h = nullptr) ∧
        destroyCalls (destructor env (destructor env m).1).2 = [nullptr] := by
    intro t m hm ht
    refine ⟨ht, ?_, ?_, rfl⟩
    · rw [ht]
      have hm2 : ¬ (nullptr = m.physics) := fun h => hm h.symm
      simp [List.count_cons, hm2]
    · intro h hh hne
      rw [ht] at hh
      simp only [List.mem_cons, List.mem_singleton, List.not_mem_nil, or_false] at hh
      rcases hh with hh | hh
      · exact hh
      · exact absurd hh hne
  constructor
  · intro m hm hnn
    apply key _ m hnn
    rw [load_from_mdf_eq] at hm ⊢
    by_cases h1 : env.path_exists mdf = true ∧ env.path_exists dedx = true
    · by_cases h3 : (env.pumas_physics_create nullptr V.tag mdf dedx).1 = PUMAS_RETURN_SUCCESS
      · rw [if_pos h1, if_pos h3] at hm ⊢
        simp [destroyCalls, destructor]
      · rw [if_pos h1, if_neg h3] at hm
        simp at hm
    · rw [if_neg h1] at hm
      simp at hm
  · intro m hm hnn
    apply key _ m hnn
    rw [load_from_binary_eq] at hm ⊢
    by_cases h1 : env.path_exists bin = true
    · cases hf : env.fopen bin "rb" with
      | none =>
        rw [if_pos h1, hf] at hm
        simp at hm
      | some f =>
        by_cases h3 : (env.pumas_physics_load nullptr f).1 = PUMAS_RETURN_SUCCESS
        · simp [if_pos h1, h3, destroyCalls, destructor]
        · rw [if_pos h1, hf] at hm
          simp [h3] at hm
    · rw [if_neg h1] at hm
      simp at hm

/-- C3 at a sample environment whose engine hands out handle `7`. -/
theorem released_exactly_once_witness :
    destroyCalls
        ((load_from_mdf (envGives 7) ParticleModel.TauModel "m.mdf" "m.dedx").2 ++
          (destructor (envGives 7)
            { particle := pumas_particle.PUMAS_PARTICLE_TAU, physics := 7 }).2) =
      [nullptr, 7] ∧
    destroyCalls
        ((load_from_binary (envGives 7) ParticleModel.TauModel "m.bin").2 ++
          (destructor (envGives 7)
            { particle := pumas_particle.PUMAS_PARTICLE_TAU, physics := 7 }).2) =
      [nullptr, 7] :=
  have h := released_exactly_once (envGives 7) ParticleModel.TauModel "m.mdf" "m.dedx" "m.bin"
  ⟨(h.1 { particle := pumas_particle.PUMAS_PARTICLE_TAU, physics := 7 } rfl (by decide)).1,
   (h.2 { particle := pumas_particle.PUMAS_PARTICLE_TAU, physics := 7 } rfl (by decide)).1⟩

/-- C6: the destructor makes exactly one call, `pumas_physics_destroy` with
the handle the instance holds, and leaves the handle null whatever the
engine wrote; the particle is untouched.  On an instance whose handle is
already null the call receives a null handle and the instance is unchanged.
Destroying twice gives the same instance as destroying once, the second
call receiving a null handle. -/
theorem destructor_releases_and_nulls (env : Env) (this : PhysicsModel) :
    (destructor env this).2 = [Event.pumas_physics_destroy this.physics] ∧
    (destructor env this).1.physics = nullptr ∧
    (destructor env this).1.particle = this.particle ∧
    (this.physics = nullptr →
      (destructor env this).2 = [Event.pumas_physics_destroy nullptr] ∧
      (destructor env this).1 = this) ∧
    (destructor env (destructor env this).1).1 = (destructor env this).1 ∧
    (destructor env (destructor env this).1).2 = [Event.pumas_physics_destroy nullptr] := by
  refine ⟨rfl, rfl, rfl, ?_, rfl, rfl⟩
  intro h
  cases this with
  | mk k p =>
    simp only at h
    subst h
    exact ⟨rfl, rfl⟩

/-- C6 at a moved-from muon instance. -/
theorem destructor_releases_and_nulls_witness :
    (destructor envNoFiles { particle := pumas_particle.PUMAS_PARTICLE_MUON, physics := nullptr }).2
        = [Event.pumas_physics_destroy nullptr] ∧
      (destructor envNoFiles
          { particle := pumas_particle.PUMAS_PARTICLE_MUON, physics := nullptr }).1 =
        { particle := pumas_particle.PUMAS_PARTICLE_MUON, physics := nullptr } :=
  (destructor_releases_and_nulls envNoFiles
    { particle := pumas_particle.PUMAS_PARTICLE_MUON, physics := nullptr }).2.2.2.1 rfl

/-! ## Moves -/

/-- C4: moving `A` into a distinct `B`.  Move-construction: the constructed
`B` has the particle and the handle of `A`, `A` is left with a null handle,
no call is made, and destroying `A` afterwards passes a null handle to
`pumas_physics_destroy`.  Move-assignment between two different addresses
`a` and `b`: the same four facts hold for the objects at `b` and `a`, and
objects at other addresses are untouched. -/
theorem move_transfers_handle (env : Env) :
    (∀ A : PhysicsModel,
      (move_construct A).1.particle = A.particle ∧
      (move_construct A).1.physics = A.physics ∧
      (move_construct A).2.1.physics = nullptr ∧
      (move_construct A).2.2 = [] ∧
      (destructor env (move_construct A).2.1).2 = [Event.pumas_physics_destroy nullptr]) ∧
    (∀ (mem : Addr → PhysicsModel) (a b : Addr), a ≠ b →
      ((move_assign mem b a).1 b).particle = (mem a).particle ∧
      ((move_assign mem b a).1 b).physics = (mem a).physics ∧
      ((move_assign mem b a).1 a).physics = nullptr ∧
      (move_assign mem b a).2 = [] ∧
      (destructor env ((move_assign mem b a).1 a)).2 = [Event.pumas_physics_destroy nullptr] ∧
      (∀ c, c ≠ a → c ≠ b → (move_assign mem b a).1 c = mem c)) := by
  constructor
  · intro A
    exact ⟨rfl, rfl, rfl, rfl, rfl⟩
  · intro mem a b hab
    have hba : b ≠ a := fun h => hab h.symm
    refine ⟨?_, ?_, ?_, rfl, ?_, ?_⟩
    · simp [move_assign, Function.update, hab, hba]
    · simp [move_assign, Function.update, hab, hba]
    · simp [move_assign, Function.update, hab, hba]
    · simp [move_assign, destructor, Function.update, hab, hba]
    · intro c hca hcb
      simp [move_assign, Function.update, hca, hcb]

/-- C4 at a sample memory: the object at `1` (handle `2`) is moved into the
object at `0`. -/
theorem move_transfers_handle_witness :
    ((move_assign (twoModels 0 2) 0 1).1 0).physics = 2 ∧
      ((move_assign (twoModels 0 2) 0 1).1 1).physics = nullptr ∧
      (move_assign (twoModels 0 2) 0 1).2 = [] :=
  have h := (move_transfers_handle envNoFiles).2 (twoModels 0 2) 1 0 (by decide)
  ⟨h.2.1, h.2.2.1, h.2.2.2.1⟩

/-! ## Saving -/

/-- C7: when `fopen` for binary write fails, `save_binary` returns failure,
writes one diagnostic, which names the path, and calls no engine entry
point, `pumas_physics_dump` included.  When `fopen` gives a stream, it calls
`pumas_physics_dump` exactly once, with the handle the instance holds and
that stream, then closes that stream, and returns success.  In both cases
the instance is unchanged. -/
theorem save_binary_calls (env : Env) (this : PhysicsModel) (path : Path) :
    (env.fopen path "wb" = none →
      (save_binary env this path).1 = false ∧
      diagnostics (save_binary env this path).2.2 = [("Failed to open ", path)] ∧
      dumpCalls (save_binary env this path).2.2 = [] ∧
      (∀ e ∈ (save_binary env this path).2.2, e.isEngineCall = false)) ∧
    (∀ f, env.fopen path "wb" = some f →
      (save_binary env this path).1 = true ∧
      dumpCalls (save_binary env this path).2.2 = [(this.physics, f)] ∧
      (save_binary env this path).2.2 =
        [Event.fopen path "wb", Event.pumas_physics_dump this.physics f, Event.fclose f] ∧
      diagnostics (save_binary env this path).2.2 = []) ∧
    (save_binary env this path).2.1 = this := by
  refine ⟨?_, ?_, ?_⟩
  · intro h
    simp [save_binary, h, diagnostics, dumpCalls, Event.isEngineCall]
  · intro f h
    simp [save_binary, h, diagnostics, dumpCalls]
  · unfold save_binary
    cases env.fopen path "wb" <;> rfl

/-- C7 at two sample environments: one in which nothing opens, one in which
every path opens as stream `3`. -/
theorem save_binary_calls_witness :
    ((save_binary envNoFiles { particle := pumas_particle.PUMAS_PARTICLE_MUON, physics := 7 }
          "/no/such/dir/out.bin").1 = false ∧
      diagnostics
          (save_binary envNoFiles { particle := pumas_particle.PUMAS_PARTICLE_MUON, physics := 7 }
            "/no/such/dir/out.bin").2.2 =
        [("Failed to open ", "/no/such/dir/out.bin")]) ∧
    ((save_binary (envGives 7) { particle := pumas_particle.PUMAS_PARTICLE_MUON, physics := 7 }
          "out.bin").1 = true ∧
      dumpCalls
          (save_binary (envGives 7) { particle := pumas_particle.PUMAS_PARTICLE_MUON, physics := 7 }
            "out.bin").2.2 =
        [(7, 3)]) :=
  have h1 := (save_binary_calls envNoFiles
    { particle := pumas_particle.PUMAS_PARTICLE_MUON, physics := 7 } "/no/such/dir/out.bin").1 rfl
  have h2 := (save_binary_calls (envGives 7)
    { particle := pumas_particle.PUMAS_PARTICLE_MUON, physics := 7 } "out.bin").2.1 3 rfl
  ⟨⟨h1.1, h1.2.1⟩, ⟨h2.1, h2.2.1⟩⟩

/-- C9 (the header does otherwise): on a moved-from instance, whose handle is
null, with a path that opens for writing, the engine's dump reports a
status other than `PUMAS_RETURN_SUCCESS`, the status is dropped, and
`save_binary` returns success. -/
theorem save_binary_drops_dump_status :
    (envGives 7).fopen "out.bin" "wb" = some 3 ∧
      (envGives 7).pumas_physics_dump nullptr 3 ≠ PUMAS_RETURN_SUCCESS ∧
      dumpCalls
          (save_binary (envGives 7)
            { particle := pumas_particle.PUMAS_PARTICLE_MUON, physics := nullptr }
            "out.bin").2.2 =
        [(nullptr, 3)] ∧
      (save_binary (envGives 7)
          { particle := pumas_particle.PUMAS_PARTICLE_MUON, physics := nullptr }
          "out.bin").1 = true := by
  refine ⟨rfl, ?_, rfl, rfl⟩
  decide

end PhysicsModel

/-! ## Invariants of client programs -/

/-- Handing the handle of `other` to `this` and nulling `other` keeps
handles unique. -/
theorem UniqueOn.transfer {phys phys1 : Addr → Handle} {L L1 : List Addr} (this other : Addr)
    (h : UniqueOn phys L) (ho : other ∈ L)
    (hL : ∀ c ∈ L1, c = this ∨ c ∈ L)
    (hp : ∀ c, phys1 c =
      if c = other then nullptr else if c = this then phys other else phys c) :
    UniqueOn phys1 L1 := by
  intro a ha b hb hab heq
  by_cases hao : a = other
  · rw [hp a, if_pos hao]
  by_cases hbo : b = other
  · rw [heq, hp b, if_pos hbo]
  rw [hp a, hp b, if_neg hao, if_neg hbo] at heq
  rw [hp a, if_neg hao]
  by_cases hat : a = this
  · have hbt : b ≠ this := fun hb2 => hab (hat.trans hb2.symm)
    rw [if_pos hat, if_neg hbt] at heq
    rw [if_pos hat]
    have hbL : b ∈ L := (hL b hb).resolve_left hbt
    exact h other ho b hbL (fun e => hbo e.symm) heq
  · have haL : a ∈ L := (hL a ha).resolve_left hat
    rw [if_neg hat] at heq ⊢
    by_cases hbt : b = this
    · rw [if_pos hbt] at heq
      exact h a haL other ho hao heq
    · rw [if_neg hbt] at heq
      exact h a haL b ((hL b hb).resolve_left hbt) hab heq

namespace PhysicsModel

/-- The memory after a move assignment, address by address. -/
theorem move_assign_apply (mem : Addr → PhysicsModel) (this other c : Addr) :
    (move_assign mem this other).1 c =
      if c = other then { particle := (mem other).particle, physics := nullptr }
      else if c = this then { particle := (mem other).particle, physics := (mem other).physics }
      else mem c := by
  by_cases hto : this = other
  · subst hto
    by_cases hc : c = this
    · subst hc
      simp [move_assign, Function.update]
    · simp [move_assign, Function.update, hc]
  · by_cases hco : c = other
    · subst hco
      have hne : ¬ (c = this) := fun e => hto e.symm
      simp [move_assign, Function.update, hne]
    · by_cases hct : c = this
      · subst hct
        have hoc : ¬ (other = c) := fun e => hco e.symm
        simp [move_assign, Function.update, hco, hoc]
      · simp [move_assign, Function.update, hco, hct]

/-- The function `save_binary` is `const`: the instance is returned as it was. -/
theorem save_binary_const (env : Env) (this : PhysicsModel) (path : Path) :
    (save_binary env this path).2.1 = this := by
  unfold save_binary
  cases env.fopen path "wb" <;> rfl

/-- A present factory result carries the particle of its class. -/
theorem load_from_mdf_particle (env : Env) (V : ParticleModel) (mdf dedx : Path)
    (m : PhysicsModel) (h : (load_from_mdf env V mdf dedx).1 = some m) :
    m.particle = V.tag := by
  rw [load_from_mdf_eq] at h
  by_cases h1 : env.path_exists mdf = true ∧ env.path_exists dedx = true
  · by_cases h3 : (env.pumas_physics_create nullptr V.tag mdf dedx).1 = PUMAS_RETURN_SUCCESS
    · rw [if_pos h1, if_pos h3] at h
      simp only [Option.some.injEq] at h
      rw [← h]
    · rw [if_pos h1, if_neg h3] at h
      simp at h
  · rw [if_neg h1] at h
    simp at h

/-- A present factory result carries the particle of its class. -/
theorem load_from_binary_particle (env : Env) (V : ParticleModel) (bin : Path)
    (m : PhysicsModel) (h : (load_from_binary env V bin).1 = some m) :
    m.particle = V.tag := by
  rw [load_from_binary_eq] at h
  by_cases h1 : env.path_exists bin = true
  · rw [if_pos h1] at h
    cases hf : env.fopen bin "rb" with
    | none => rw [hf] at h; simp at h
    | some f =>
      rw [hf] at h
      by_cases h3 : (env.pumas_physics_load nullptr f).1 = PUMAS_RETURN_SUCCESS
      · simp only [if_pos h3, Option.some.injEq] at h
        rw [← h]
      · simp [h3] at h
  · rw [if_neg h1] at h
    simp at h

end PhysicsModel

/-- A new address whose handle is null or held by nobody keeps handles
unique. -/
theorem UniqueOn.insert {phys phys1 : Addr → Handle} {L : List Addr} (ret : Addr)
    (h : UniqueOn phys L)
    (hp : ∀ c, c ≠ ret → phys1 c = phys c)
    (hnew : phys1 ret = nullptr ∨ ∀ b ∈ L, phys b ≠ phys1 ret) :
    UniqueOn phys1 (ret :: L) := by
  intro a ha b hb hab heq
  simp only [List.mem_cons] at ha hb
  by_cases har : a = ret
  · have hbr : b ≠ ret := fun e => hab (har.trans e.symm)
    have hbL : b ∈ L := hb.resolve_left hbr
    rcases hnew with hn | hn
    · rw [har]; exact hn
    · rw [har, hp b hbr] at heq
      exact absurd heq.symm (hn b hbL)
  · have haL : a ∈ L := ha.resolve_left har
    by_cases hbr : b = ret
    · rcases hnew with hn | hn
      · rw [heq, hbr]; exact hn
      · rw [hbr, hp a har] at heq
        exact absurd heq (hn a haL)
    · have hbL : b ∈ L := hb.resolve_left hbr
      rw [hp a har, hp b hbr] at heq
      rw [hp a har]
      exact h a haL b hbL hab heq

/-- Fewer addresses with the same handles keep handles unique. -/
theorem UniqueOn.restrict {phys phys1 : Addr → Handle} {L L1 : List Addr}
    (h : UniqueOn phys L) (hL : ∀ c ∈ L1, c ∈ L) (hp : ∀ c ∈ L1, phys1 c = phys c) :
    UniqueOn phys1 L1 := by
  intro a ha b hb hab heq
  rw [hp a ha, hp b hb] at heq
  rw [hp a ha]
  exact h a (hL a ha) b (hL b hb) hab heq

namespace World

theorem owned_iff (w : World) (h : Handle) :
    w.owned h = true ↔ ∃ a ∈ w.live, (w.mem a).physics = h := by
  simp [owned, List.any_eq_true]

theorem uniqueOwnership_iff (w : World) :
    w.UniqueOwnership ↔ UniqueOn (fun a => (w.mem a).physics) w.live :=
  Iff.rfl

theorem store_unique {w w1 : World} {V : ParticleModel} {ret : Addr}
    {r : Option PhysicsModel × List Event}
    (hu : w.UniqueOwnership) (h : w.store V ret r = some w1) : w1.UniqueOwnership := by
  unfold store at h
  cases hr : r.1 with
  | none =>
    rw [hr] at h
    simp only [Option.some.injEq] at h
    subst h
    exact hu
  | some m =>
    rw [hr] at h
    simp only at h
    by_cases hc : m.physics ≠ nullptr ∧ w.owned m.physics = true
    · rw [if_pos hc] at h
      exact Option.noConfusion h
    · rw [if_neg hc] at h
      simp only [Option.some.injEq] at h
      subst h
      refine UniqueOn.insert ret hu ?_ ?_
      · intro c hcr
        simp [Function.update, hcr]
      · by_cases hn : m.physics = nullptr
        · left
          simp [Function.update, hn]
        · right
          intro b hb hbe
          apply hc
          refine ⟨hn, (owned_iff w _).2 ⟨b, hb, ?_⟩⟩
          simpa [Function.update] using hbe

theorem step_unique {w w1 : World} {op : Op} (hu : w.UniqueOwnership)
    (h : w.step op = some w1) : w1.UniqueOwnership := by
  cases op with
  | load_from_mdf env V mdf dedx ret =>
    simp only [step] at h
    by_cases hr : ret ∈ w.live
    · rw [if_pos hr] at h
      exact Option.noConfusion h
    · rw [if_neg hr] at h
      exact store_unique hu h
  | load_from_binary env V bin ret =>
    simp only [step] at h
    by_cases hr : ret ∈ w.live
    · rw [if_pos hr] at h
      exact Option.noConfusion h
    · rw [if_neg hr] at h
      exact store_unique hu h
  | moveConstruct this other =>
    simp only [step] at h
    by_cases hc : this ∈ w.live ∨ other ∉ w.live
    · rw [if_pos hc] at h
      exact Option.noConfusion h
    · rw [if_neg hc] at h
      simp only [Option.some.injEq] at h
      subst h
      have ht : this ∉ w.live := fun e => hc (Or.inl e)
      have ho : other ∈ w.live := by
        by_contra e
        exact hc (Or.inr e)
      have hne : other ≠ this := fun e => ht (e ▸ ho)
      refine UniqueOn.transfer this other hu ho ?_ ?_
      · intro c hcl
        simpa [List.mem_cons] using hcl
      · intro c
        by_cases hco : c = other
        · subst hco
          simp [PhysicsModel.move_construct, Function.update, hne]
        · by_cases hct : c = this
          · subst hct
            simp [PhysicsModel.move_construct, Function.update, hco]
          · simp [PhysicsModel.move_construct, Function.update, hco, hct]
  | moveAssign this other =>
    simp only [step] at h
    by_cases hc : this ∉ w.live ∨ other ∉ w.live ∨ w.variant this ≠ w.variant other
    · rw [if_pos hc] at h
      exact Option.noConfusion h
    · rw [if_neg hc] at h
      simp only [Option.some.injEq] at h
      subst h
      have ho : other ∈ w.live := by
        by_contra e
        exact hc (Or.inr (Or.inl e))
      refine UniqueOn.transfer this other hu ho (fun c hcl => Or.inr hcl) ?_
      intro c
      show ((PhysicsModel.move_assign w.mem this other).1 c).physics = _
      rw [PhysicsModel.move_assign_apply]
      by_cases hco : c = other
      · simp [hco]
      · by_cases hct : c = this
        · subst hct
          simp [hco]
        · simp [hco, hct]
  | save_binary env this path =>
    simp only [step] at h
    by_cases hc : this ∉ w.live
    · rw [if_pos hc] at h
      exact Option.noConfusion h
    · rw [if_neg hc] at h
      simp only [Option.some.injEq] at h
      subst h
      refine UniqueOn.restrict hu (fun c hcl => hcl) ?_
      intro c _
      have hs := PhysicsModel.save_binary_const env (w.mem this) path
      by_cases hct : c = this
      · subst hct
        simp [Function.update, hs]
      · simp [Function.update, hct]
  | destroy env this =>
    simp only [step] at h
    by_cases hc : this ∉ w.live
    · rw [if_pos hc] at h
      exact Option.noConfusion h
    · rw [if_neg hc] at h
      simp only [Option.some.injEq] at h
      subst h
      refine UniqueOn.restrict hu ?_ ?_
      · intro c hcl
        exact (List.mem_filter.1 hcl).1
      · intro c hcl
        have hct : c ≠ this := by
          have := (List.mem_filter.1 hcl).2
          simpa using this
        simp [Function.update, hct]

theorem run_unique (ops : List Op) : ∀ w w1 : World, w.UniqueOwnership →
    w.run ops = some w1 → w1.UniqueOwnership := by
  induction ops with
  | nil =>
    intro w w1 hu h
    simp only [run, Option.some.injEq] at h
    subst h
    exact hu
  | cons op ops ih =>
    intro w w1 hu h
    simp only [run] at h
    cases hs : w.step op with
    | none => rw [hs] at h; exact Option.noConfusion h
    | some w2 =>
      rw [hs] at h
      exact ih w2 w1 (step_unique hu hs) h

theorem store_tag {w w1 : World} {V : ParticleModel} {ret : Addr}
    {r : Option PhysicsModel × List Event}
    (hm : ∀ m, r.1 = some m → m.particle = V.tag)
    (ht : w.TagFixed) (h : w.store V ret r = some w1) : w1.TagFixed := by
  unfold store at h
  cases hr : r.1 with
  | none =>
    rw [hr] at h
    simp only [Option.some.injEq] at h
    subst h
    exact ht
  | some m =>
    rw [hr] at h
    simp only at h
    by_cases hc : m.physics ≠ nullptr ∧ w.owned m.physics = true
    · rw [if_pos hc] at h
      exact Option.noConfusion h
    · rw [if_neg hc] at h
      simp only [Option.some.injEq] at h
      subst h
      intro a ha
      by_cases har : a = ret
      · subst har
        simpa [Function.update] using hm m hr
      · have haL : a ∈ w.live := by
          simpa [har] using ha
        simpa [Function.update, har] using ht a haL

theorem step_tag {w w1 : World} {op : Op} (ht : w.TagFixed)
    (h : w.step op = some w1) : w1.TagFixed := by
  cases op with
  | load_from_mdf env V mdf dedx ret =>
    simp only [step] at h
    by_cases hr : ret ∈ w.live
    · rw [if_pos hr] at h
      exact Option.noConfusion h
    · rw [if_neg hr] at h
      exact store_tag (PhysicsModel.load_from_mdf_particle env V mdf dedx) ht h
  | load_from_binary env V bin ret =>
    simp only [step] at h
    by_cases hr : ret ∈ w.live
    · rw [if_pos hr] at h
      exact Option.noConfusion h
    · rw [if_neg hr] at h
      exact store_tag (PhysicsModel.load_from_binary_particle env V bin) ht h
  | moveConstruct this other =>
    simp only [step] at h
    by_cases hc : this ∈ w.live ∨ other ∉ w.live
    · rw [if_pos hc] at h
      exact Option.noConfusion h
    · rw [if_neg hc] at h
      simp only [Option.some.injEq] at h
      subst h
      have hnt : this ∉ w.live := fun e => hc (Or.inl e)
      have ho : other ∈ w.live := by
        by_contra e
        exact hc (Or.inr e)
      intro a ha
      by_cases hat : a = this
      · subst hat
        simpa [PhysicsModel.move_construct, Function.update] using ht other ho
      · have haL : a ∈ w.live := by
          simpa [hat] using ha
        by_cases hao : a = other
        · subst hao
          simpa [PhysicsModel.move_construct, Function.update, hat] using ht a haL
        · simpa [PhysicsModel.move_construct, Function.update, hat, hao] using ht a haL
  | moveAssign this other =>
    simp only [step] at h
    by_cases hc : this ∉ w.live ∨ other ∉ w.live ∨ w.variant this ≠ w.variant other
    · rw [if_pos hc] at h
      exact Option.noConfusion h
    · rw [if_neg hc] at h
      simp only [Option.some.injEq] at h
      subst h
      have ho : other ∈ w.live := by
        by_contra e
        exact hc (Or.inr (Or.inl e))
      have hv : w.variant this = w.variant other := by
        by_contra e
        exact hc (Or.inr (Or.inr e))
      intro a ha
      show ((PhysicsModel.move_assign w.mem this other).1 a).particle = (w.variant a).tag
      rw [PhysicsModel.move_assign_apply]
      by_cases hao : a = other
      · subst hao
        simpa using ht a ho
      · by_cases hat : a = this
        · subst hat
          rw [hv]
          simpa [hao] using ht other ho
        · simpa [hao, hat] using ht a ha
  | save_binary env this path =>
    simp only [step] at h
    by_cases hc : this ∉ w.live
    · rw [if_pos hc] at h
      exact Option.noConfusion h
    · rw [if_neg hc] at h
      simp only [Option.some.injEq] at h
      subst h
      intro a ha
      have hs := PhysicsModel.save_binary_const env (w.mem this) path
      by_cases hat : a = this
      · subst hat
        simpa [Function.update, hs] using ht a ha
      · simpa [Function.update, hat] using ht a ha
  | destroy env this =>
    simp only [step] at h
    by_cases hc : this ∉ w.live
    · rw [if_pos hc] at h
      exact Option.noConfusion h
    · rw [if_neg hc] at h
      simp only [Option.some.injEq] at h
      subst h
      intro a ha
      have haL : a ∈ w.live := (List.mem_filter.1 ha).1
      have hat : a ≠ this := by
        have := (List.mem_filter.1 ha).2
        simpa using this
      simpa [Function.update, hat] using ht a haL

theorem run_tag (ops : List Op) : ∀ w w1 : World, w.TagFixed →
    w.run ops = some w1 → w1.TagFixed := by
  induction ops with
  | nil =>
    intro w w1 ht h
    simp only [run, Option.some.injEq] at h
    subst h
    exact ht
  | cons op ops ih =>
    intro w w1 ht h
    simp only [run] at h
    cases hs : w.step op with
    | none => rw [hs] at h; exact Option.noConfusion h
    | some w2 =>
      rw [hs] at h
      exact ih w2 w1 (step_tag ht hs) h

/-- The class of a live object does not change. -/
theorem step_variant {w w1 : World} {op : Op} (h : w.step op = some w1) :
    ∀ a ∈ w.live, w1.variant a = w.variant a := by
  intro a ha
  cases op with
  | load_from_mdf env V mdf dedx ret =>
    simp only [step] at h
    by_cases hr : ret ∈ w.live
    · rw [if_pos hr] at h
      exact Option.noConfusion h
    · rw [if_neg hr] at h
      have har : a ≠ ret := fun e => hr (e ▸ ha)
      unfold store at h
      split at h
      · split_ifs at h
        simp only [Option.some.injEq] at h
        subst h
        simp [Function.update, har]
      · simp only [Option.some.injEq] at h
        subst h
        rfl
  | load_from_binary env V bin ret =>
    simp only [step] at h
    by_cases hr : ret ∈ w.live
    · rw [if_pos hr] at h
      exact Option.noConfusion h
    · rw [if_neg hr] at h
      have har : a ≠ ret := fun e => hr (e ▸ ha)
      unfold store at h
      split at h
      · split_ifs at h
        simp only [Option.some.injEq] at h
        subst h
        simp [Function.update, har]
      · simp only [Option.some.injEq] at h
        subst h
        rfl
  | moveConstruct this other =>
    simp only [step] at h
    by_cases hc : this ∈ w.live ∨ other ∉ w.live
    · rw [if_pos hc] at h
      exact Option.noConfusion h
    · rw [if_neg hc] at h
      simp only [Option.some.injEq] at h
      subst h
      have hat : a ≠ this := fun e => hc (Or.inl (e ▸ ha))
      simp [Function.update, hat]
  | moveAssign this other =>
    simp only [step] at h
    split_ifs at h
    simp only [Option.some.injEq] at h
    subst h
    rfl
  | save_binary env this path =>
    simp only [step] at h
    split_ifs at h
    simp only [Option.some.injEq] at h
    subst h
    rfl
  | destroy env this =>
    simp only [step] at h
    split_ifs at h
    simp only [Option.some.injEq] at h
    subst h
    rfl

theorem init_unique : init.UniqueOwnership := by
  intro a ha
  exact absurd ha (List.not_mem_nil a)

theorem init_tag : init.TagFixed := by
  intro a ha
  exact absurd ha (List.not_mem_nil a)

/-- C5: starting from no instance, after every sequence of factory calls
(the engine never handing out a non-null handle that a live instance
holds), move-constructions, move-assignments (self-assignment included),
saves and destructions that the program is allowed to make, no two distinct
live instances hold the same non-null handle. -/
theorem unique_ownership_invariant (ops : List Op) (w : World)
    (h : init.run ops = some w) : w.UniqueOwnership :=
  run_unique ops init w init_unique h

/-- C5 at the sample program, which ends with four live instances. -/
theorem unique_ownership_invariant_witness :
    ∃ w, init.run sampleProgram = some w ∧ w.live = [3, 0, 2, 1] ∧
      (w.mem 3).physics = 4 ∧ (w.mem 0).physics = 3 ∧ (w.mem 2).physics = nullptr ∧
      (w.mem 1).physics = nullptr ∧ w.UniqueOwnership :=
  ⟨_, rfl, rfl, rfl, rfl, rfl, rfl, unique_ownership_invariant sampleProgram _ rfl⟩

/-- C8 (the header does otherwise): the destination at address `0` owns
handle `1` when the source at address `1`, owning handle `2`, is
move-assigned to it.  The assignment makes no call; afterwards the
destination holds `2`, the source holds null and no object holds `1`.  After
both objects are destroyed no instance is live and `pumas_physics_destroy`
has received `0, 0, 2, 0`: handle `1` was never released. -/
theorem move_assign_drops_destination_handle :
    ((init.run (leakProgram.take 2)).map
        (fun w => (w.live, (w.mem 0).physics, (w.mem 1).physics, destroyCalls w.trace))
      = some ([1, 0], 1, 2, [0, 0])) ∧
    ((init.run (leakProgram.take 3)).map
        (fun w => (w.live, (w.mem 0).physics, (w.mem 1).physics, destroyCalls w.trace))
      = some ([1, 0], 2, 0, [0, 0])) ∧
    (PhysicsModel.move_assign (twoModels 1 2) 0 1).2 = [] ∧
    ((init.run leakProgram).map (fun w => (w.live, destroyCalls w.trace))
      = some ([], [0, 0, 2, 0])) :=
  ⟨rfl, rfl, rfl, rfl⟩

/-- C10: with both input files present, `load_from_mdf` of `MuonModel`
calls `pumas_physics_create` once, with `PUMAS_PARTICLE_MUON`, and
`load_from_mdf` of `TauModel` calls it once, with `PUMAS_PARTICLE_TAU`; the
two particles differ.  In every state a client program can reach, every
live instance carries the particle of its class, and a step of the program
changes neither the class nor the particle of an instance that stays
live. -/
theorem particle_kind_fixed :
    (∀ (env : Env) (mdf dedx : Path),
      env.path_exists mdf = true → env.path_exists dedx = true →
        createCalls (PhysicsModel.load_from_mdf env ParticleModel.MuonModel mdf dedx).2 =
          [(nullptr, pumas_particle.PUMAS_PARTICLE_MUON, mdf, dedx)] ∧
        createCalls (PhysicsModel.load_from_mdf env ParticleModel.TauModel mdf dedx).2 =
          [(nullptr, pumas_particle.PUMAS_PARTICLE_TAU, mdf, dedx)]) ∧
    pumas_particle.PUMAS_PARTICLE_MUON ≠ pumas_particle.PUMAS_PARTICLE_TAU ∧
    (∀ (ops : List Op) (w : World), init.run ops = some w → w.TagFixed) ∧
    (∀ (ops : List Op) (w : World) (op : Op) (w1 : World),
      init.run ops = some w → w.step op = some w1 →
        ∀ a ∈ w.live, a ∈ w1.live →
          w1.variant a = w.variant a ∧ (w1.mem a).particle = (w.mem a).particle) := by
  refine ⟨?_, by decide, ?_, ?_⟩
  · intro env mdf dedx h1 h2
    have h12 : env.path_exists mdf = true ∧ env.path_exists dedx = true := ⟨h1, h2⟩
    constructor
    · rw [PhysicsModel.load_from_mdf_eq, if_pos h12]
      split_ifs <;> rfl
    · rw [PhysicsModel.load_from_mdf_eq, if_pos h12]
      split_ifs <;> rfl
  · intro ops w h
    exact run_tag ops init w init_tag h
  · intro ops w op w1 h hs a ha ha1
    have ht : w.TagFixed := run_tag ops init w init_tag h
    have ht1 : w1.TagFixed := step_tag ht hs
    have hv := step_variant hs a ha
    refine ⟨hv, ?_⟩
    rw [ht1 a ha1, ht a ha, hv]

/-- C10 at a sample environment and at the sample program. -/
theorem particle_kind_fixed_witness :
    createCalls (PhysicsModel.load_from_mdf (envGives 7) ParticleModel.TauModel
        "m.mdf" "m.dedx").2 =
      [(nullptr, pumas_particle.PUMAS_PARTICLE_TAU, "m.mdf", "m.dedx")] ∧
    ∃ w, init.run sampleProgram = some w ∧ w.live = [3, 0, 2, 1] ∧ w.TagFixed :=
  ⟨(particle_kind_fixed.1 (envGives 7) "m.mdf" "m.dedx" rfl rfl).2,
   ⟨_, rfl, rfl, particle_kind_fixed.2.2.1 sampleProgram _ rfl⟩⟩

end World

end noa.pms.pumas
